import Mathlib

/-!
Shallow embedding of the CPRF data-quality checker (`src/app.py`).

A cell of the tabular dataset is a piece of text, modelled as a list of
characters (`Str`); a pandas string cell that is `<NA>` is `none : Option Str`.
The embedding covers ASCII text, so the regex character classes appearing in
the source are given their ASCII meaning.
-/

/-- A text value: the characters of one cell. -/
abbrev Str := List Char

/-- Whitespace, as recognised by Python `str.strip()` and the regex class
for spaces (ASCII): space, tab, newline, carriage return, vertical tab,
form feed. -/
def isSpaceB (c : Char) : Bool :=
  c.toNat = 32 || c.toNat = 9 || c.toNat = 10 || c.toNat = 13 ||
    c.toNat = 11 || c.toNat = 12

/-- Drop trailing whitespace. -/
def rstripWS (l : Str) : Str := (l.reverse.dropWhile isSpaceB).reverse

/-- Python `str.strip()` / pandas `.str.strip()`: drop leading and trailing
whitespace. -/
def trimWS (l : Str) : Str := (rstripWS l).dropWhile isSpaceB

/-- Python `str.upper()` on one character, restricted to ASCII letters. -/
def asciiUpper : Char → Char
  | 'a' => 'A'
  | 'b' => 'B'
  | 'c' => 'C'
  | 'd' => 'D'
  | 'e' => 'E'
  | 'f' => 'F'
  | 'g' => 'G'
  | 'h' => 'H'
  | 'i' => 'I'
  | 'j' => 'J'
  | 'k' => 'K'
  | 'l' => 'L'
  | 'm' => 'M'
  | 'n' => 'N'
  | 'o' => 'O'
  | 'p' => 'P'
  | 'q' => 'Q'
  | 'r' => 'R'
  | 's' => 'S'
  | 't' => 'T'
  | 'u' => 'U'
  | 'v' => 'V'
  | 'w' => 'W'
  | 'x' => 'X'
  | 'y' => 'Y'
  | 'z' => 'Z'
  | c => c

/-- Python `str.upper()` on a whole value (ASCII). -/
def listUpper (l : Str) : Str := l.map asciiUpper

/-- Regex class for digits (ASCII). -/
def isDigitB (c : Char) : Bool := 48 ≤ c.toNat && c.toNat ≤ 57

/-- Regex class for word characters (ASCII): letters, digits, underscore. -/
def isWordCharB (c : Char) : Bool :=
  (65 ≤ c.toNat && c.toNat ≤ 90) || (97 ≤ c.toNat && c.toNat ≤ 122) ||
    isDigitB c || c.toNat = 95

/-- One row of the main dataset: the cells the core logic reads
(`PROGRAMSUBTYPENAME`, `School UDISE`, `ProgramLaunchName`,
`Child School Name`, `DATE OF BIRTH`, `CONTACTNUMBER`, `CASTE`,
`Parent Consent`). -/
structure Record where
  programsubtypename : Option Str
  schoolUDISE : Option Str
  programLaunchName : Option Str
  childSchoolName : Option Str
  dateOfBirth : Option Str
  contactNumber : Option Str
  caste : Option Str
  parentConsent : Option Str
deriving DecidableEq

/-- The sentinel category value, as spelled in the source. -/
def adoloscentLit : Str := "ADOLOSCENT".data

/-- Category test on one cell value:
`df["PROGRAMSUBTYPENAME"].str.strip()` followed by the mask
`.str.upper() == "ADOLOSCENT"`. -/
def inScopeStr (s : Str) : Bool := listUpper (trimWS s) == adoloscentLit

/-- Category filter decision for one record; a `<NA>` comparison result is
treated as False by the pandas boolean mask. -/
def inScope (r : Record) : Bool :=
  match r.programsubtypename with
  | none => false
  | some s => inScopeStr s

/-- One cell of `missing_mask = udise_col.isna() | udise_col.str.strip().eq("")`. -/
def missingMask (r : Record) : Bool :=
  r.schoolUDISE.isNone ||
    (match r.schoolUDISE with
     | none => false
     | some s => trimWS s == [])

/-- Rows surviving the category filter and then the missing-UDISE filter
(the rows of `missing_df`). -/
def filteredSet (rs : List Record) : List Record :=
  (rs.filter inScope).filter missingMask

/-- Pandas `.fillna("").astype(str).str.strip()` on one optional cell. -/
def cellTrim (o : Option Str) : Str := trimWS (o.getD [])

/-- Boolean behind `UDISE_Missing(Yes/No)`: filled and trimmed value is empty. -/
def udiseFlagV (o : Option Str) : Bool := cellTrim o == []

/-- The `UDISE_Missing(Yes/No)` label. -/
def udiseLabelV (o : Option Str) : String :=
  if udiseFlagV o then "Missing" else "Available"

def udiseFlagB (r : Record) : Bool := udiseFlagV r.schoolUDISE

def udiseLabel (r : Record) : String := udiseLabelV r.schoolUDISE

/-- Boolean behind `Check Child School Name`: blank or `null` (case-insensitive). -/
def csnFlagV (o : Option Str) : Bool :=
  cellTrim o == [] || listUpper (cellTrim o) == "NULL".data

/-- The `Check Child School Name` label. -/
def csnLabelV (o : Option Str) : String :=
  if csnFlagV o then "Missing" else "Available"

def csnFlagB (r : Record) : Bool := csnFlagV r.childSchoolName

def csnLabel (r : Record) : String := csnLabelV r.childSchoolName

/-- Separator class after the day in the DOB pattern: dash, slash or space. -/
def isSep1 (c : Char) : Bool := c = '-' || c = '/' || c = ' '

/-- Separator class after the month in the DOB pattern: dash or slash only. -/
def isSep2 (c : Char) : Bool := c = '-' || c = '/'

/-- Consume the regex piece `0?1` at the head of the text: an optional
leading zero followed by the digit one. -/
def matchLeadOne : Str → Option Str
  | [] => none
  | c :: cs =>
    if c = '1' then some cs
    else
      if c = '0' then
        match cs with
        | [] => none
        | d :: ds => if d = '1' then some ds else none
      else none

/-- Match, at the head of the text, the source's DOB regex with the word
boundary removed: an optional zero and a one, a dash-slash-space separator,
an optional zero and a one, then a dash-or-slash separator. -/
def dobMatchAt (l : Str) : Bool :=
  match matchLeadOne l with
  | some (s1 :: r1) =>
    isSep1 s1 &&
      (match matchLeadOne r1 with
       | some (s2 :: _) => isSep2 s2
       | _ => false)
  | _ => false

/-- Word-boundary test for a position whose previous character is `prev`
(the pattern starts with a digit, a word character). -/
def boundaryB : Option Char → Bool
  | none => true
  | some p => !(isWordCharB p)

/-- Scan of `.str.contains` for the source's DOB pattern (a word boundary
followed by `dobMatchAt`): try every position, carrying the previous
character for the word-boundary test. -/
def dobScan : Option Char → Str → Bool
  | _, [] => false
  | prev, c :: cs => (boundaryB prev && dobMatchAt (c :: cs)) || dobScan (some c) cs

/-- Boolean behind `Check Date Of Birth`. -/
def dobFlagV (o : Option Str) : Bool := dobScan none (cellTrim o)

/-- The `Check Date Of Birth` label. -/
def dobLabelV (o : Option Str) : String :=
  if dobFlagV o then "Flag – DOB is 1 Jan" else ""

def dobFlagB (r : Record) : Bool := dobFlagV r.dateOfBirth

def dobLabel (r : Record) : String := dobLabelV r.dateOfBirth

/-- The digit string kept for phone validation:
`.str.replace(regex for non-digits, "")` after fill and trim. -/
def phoneDigits (o : Option Str) : Str := (cellTrim o).filter isDigitB

/-- First character admitted by the mobile pattern. -/
def isSixToNine (c : Char) : Bool := c = '6' || c = '7' || c = '8' || c = '9'

/-- Full match of the regex for an Indian mobile number: one character in
6–9 followed by exactly nine digits. -/
def matchMobile (l : Str) : Bool :=
  match l with
  | [] => false
  | c :: rest => isSixToNine c && (rest.length == 9 && rest.all isDigitB)

/-- Boolean behind `Check Phone Number`: digits empty or not a valid mobile. -/
def phoneFlagV (o : Option Str) : Bool :=
  phoneDigits o == [] || !(matchMobile (phoneDigits o))

/-- The `Check Phone Number` label. -/
def phoneLabelV (o : Option Str) : String :=
  if phoneFlagV o then "Missing/Invalid" else "Valid"

def phoneFlagB (r : Record) : Bool := phoneFlagV r.contactNumber

def phoneLabel (r : Record) : String := phoneLabelV r.contactNumber

/-- Upper-cased trimmed caste value. -/
def casteUpperV (o : Option Str) : Str := listUpper (cellTrim o)

/-- The `CASTE_Interpretation` column text. -/
def casteInterpV (o : Option Str) : String :=
  if casteUpperV o == "DONT KNOW".data then "Caste not known"
  else if casteUpperV o == "DONT WISH".data then "Caste not disclosed"
  else ""

/-- Boolean behind `Check Caste`: value is one of the two sentinel phrases. -/
def casteFlagV (o : Option Str) : Bool :=
  casteUpperV o == "DONT KNOW".data || casteUpperV o == "DONT WISH".data

/-- The `Check Caste` label. -/
def casteCheckLabelV (o : Option Str) : String :=
  if casteFlagV o then "Caste not known/disclosed" else ""

def casteFlagB (r : Record) : Bool := casteFlagV r.caste

def casteCheckLabel (r : Record) : String := casteCheckLabelV r.caste

/-- Boolean behind `Check Parent Consent`: blank or `null` (case-insensitive). -/
def pcFlagV (o : Option Str) : Bool :=
  cellTrim o == [] || listUpper (cellTrim o) == "NULL".data

/-- The `Check Parent Consent` label. -/
def pcLabelV (o : Option Str) : String :=
  if pcFlagV o then "Missing" else "Available"

def pcFlagB (r : Record) : Bool := pcFlagV r.parentConsent

def pcLabel (r : Record) : String := pcLabelV r.parentConsent

/-- Fallback name used by `safe_filename` when nothing is left. -/
def placeholderName : Str := "UnknownProgramLaunch".data

/-- First substitution of `safe_filename`: every character that is not a
word character, a dash or whitespace becomes an underscore. -/
def subNonWord (l : Str) : Str :=
  l.map (fun c => if isWordCharB c || c = '-' || isSpaceB c then c else '_')

/-- Second substitution of `safe_filename`: each maximal whitespace run
becomes a single underscore. -/
def collapseWS : Str → Str
  | [] => []
  | c :: cs =>
    if isSpaceB c then '_' :: collapseWS (cs.dropWhile isSpaceB)
    else c :: collapseWS cs
termination_by l => l.length
decreasing_by
  · have h := List.Sublist.length_le (List.dropWhile_sublist (l := cs) isSpaceB)
    simp only [List.length_cons]
    omega
  · simp only [List.length_cons]
    omega

/-- `safe_filename`: trim, substitute, collapse whitespace, fall back to the
placeholder when empty, truncate to 150 characters. -/
def safeFilename (s : Str) : Str :=
  (if collapseWS (subNonWord (trimWS s)) = [] then placeholderName
   else collapseWS (subNonWord (trimWS s))).take 150

/-- The two background fills used by `apply_issue_coloring`. -/
inductive Fill where
  | red
  | yellow
deriving DecidableEq

/-- The implicated original columns of one data row, in the order the mask
dictionary of `apply_issue_coloring` is built: each flag column is compared
with its issue label and mapped to its original column. -/
def issueCols (r : Record) : List String :=
  (if udiseLabel r == "Missing" then ["School UDISE"] else []) ++
    ((if csnLabel r == "Missing" then ["Child School Name"] else []) ++
      ((if dobLabel r == "Flag – DOB is 1 Jan" then ["DATE OF BIRTH"] else []) ++
        ((if phoneLabel r == "Missing/Invalid" then ["CONTACTNUMBER"] else []) ++
          ((if casteCheckLabel r != "" then ["CASTE"] else []) ++
            (if pcLabel r == "Missing" then ["Parent Consent"] else [])))))

/-- The fill chosen for one data row: skipped when there is no issue, red
for more than two issues, yellow otherwise. -/
def rowFill (r : Record) : Option Fill :=
  if (issueCols r).length = 0 then none
  else some (if 2 < (issueCols r).length then Fill.red else Fill.yellow)

/-- The cells filled by the loop of `apply_issue_coloring`, starting at data
row index `i`: Excel row number (header is row 1, first data row is row 2),
implicated column name, and fill. -/
def styledRows : Nat → List Record → List (Nat × String × Fill)
  | _, [] => []
  | i, r :: rest =>
    (match rowFill r with
     | none => []
     | some f => (issueCols r).map (fun c => (2 + i, c, f))) ++
      styledRows (i + 1) rest

/-- All cells filled by `apply_issue_coloring` for one artifact's data rows. -/
def styledCellsOf (data : List Record) : List (Nat × String × Fill) :=
  styledRows 0 data

/-- The six per-record issue flags, as one value. -/
structure IssueFlags where
  udise : Bool
  csn : Bool
  dob : Bool
  phone : Bool
  caste : Bool
  pc : Bool
deriving DecidableEq

/-- Number of active flags. -/
def activeCount (f : IssueFlags) : Nat :=
  (if f.udise then 1 else 0) + (if f.csn then 1 else 0) + (if f.dob then 1 else 0) +
    (if f.phone then 1 else 0) + (if f.caste then 1 else 0) + (if f.pc then 1 else 0)

/-- The flags of one record. -/
def flagsOf (r : Record) : IssueFlags :=
  ⟨udiseFlagB r, csnFlagB r, dobFlagB r, phoneFlagB r, casteFlagB r, pcFlagB r⟩

/-- Modelled from the spec: the severity tier as a function of the
active-flag count alone (0 is no styling, 1–2 the moderate tier, more than
2 the severe tier). -/
def tierSpec (n : Nat) : Option Fill :=
  if n = 0 then none else some (if 2 < n then Fill.red else Fill.yellow)

/-- Strict lexicographic order on text, by character code. -/
def lexLt : Str → Str → Bool
  | _, [] => false
  | [], _ :: _ => true
  | a :: as, b :: bs =>
    decide (a.toNat < b.toNat) || (decide (a.toNat = b.toNat) && lexLt as bs)

/-- Group-key order used by `groupby(sort=True)`: string keys ascending,
the `<NA>` group last. -/
def keyLt : Option Str → Option Str → Bool
  | some a, some b => lexLt a b
  | some _, none => true
  | none, _ => false

def keyLe (a b : Option Str) : Bool := !(keyLt b a)

/-- The grouping key of a record: `ProgramLaunchName` after the in-place
`.str.strip()` cleaning step. -/
def groupKey (r : Record) : Option Str := r.programLaunchName.map trimWS

/-- Insert a key into an ascending list of keys. -/
def insertAsc (x : Option Str) : List (Option Str) → List (Option Str)
  | [] => [x]
  | y :: ys => if keyLe x y then x :: y :: ys else y :: insertAsc x ys

/-- Ascending sort of group keys, as `groupby(sort=True)` orders the groups. -/
def sortKeysAsc : List (Option Str) → List (Option Str)
  | [] => []
  | k :: ks => insertAsc k (sortKeysAsc ks)

/-- `groupby(...).size()` for one key. -/
def countFor (rs : List Record) (k : Option Str) : Nat :=
  rs.countP (fun r => groupKey r == k)

/-- One row of the summary table: group key and count. -/
abbrev SRow := Option Str × Nat

/-- Insert a summary row into a list sorted by count descending, keeping it
before rows of equal count that were inserted earlier from further right. -/
def insertDesc (x : SRow) : List SRow → List SRow
  | [] => [x]
  | y :: ys => if y.2 ≤ x.2 then x :: y :: ys else y :: insertDesc x ys

/-- `sort_values("Missing_UDISE_Count", ascending=False)`: stable sort of
the summary rows by count descending. -/
def sortCountDesc : List SRow → List SRow
  | [] => []
  | x :: l => insertDesc x (sortCountDesc l)

/-- `summary_df`: group the rows by cleaned `ProgramLaunchName` (the `<NA>`
key kept, `dropna=False`), keys in the sorted order `groupby` produces,
count each group, then sort by count descending. -/
def summaryOf (rs : List Record) : List SRow :=
  sortCountDesc
    ((sortKeysAsc (rs.map groupKey).dedup).map (fun k => (k, countFor rs k)))

/-- Total of the summary counts. -/
def sumCounts (l : List SRow) : Nat := (l.map Prod.snd).sum

/-- Modelled from the claim's words for the birth-date rule: day=1 month=1
anchored at the start of the trimmed value, separators dash, slash or
space, optional leading zeros. -/
def dobSpecStart (s : Str) : Bool :=
  match matchLeadOne (trimWS s) with
  | some (s1 :: r1) =>
    isSep1 s1 &&
      (match matchLeadOne r1 with
       | some (s2 :: _) => isSep1 s2
       | _ => false)
  | _ => false

/-! Helper lemmas about trimming, case mapping and the filters. -/

lemma missingMask_iff (r : Record) :
    missingMask r = true ↔
      (r.schoolUDISE = none ∨ trimWS (r.schoolUDISE.getD []) = []) := by
  unfold missingMask
  cases h : r.schoolUDISE with
  | none => simp [h]
  | some s => simp [h]

lemma dropWhile_eq_nil_of_all {w : Str} (hw : ∀ c ∈ w, isSpaceB c = true) :
    w.dropWhile isSpaceB = [] := by
  induction w with
  | nil => rfl
  | cons c cs ih =>
    rw [List.dropWhile_cons_of_pos (hw c (List.mem_cons_self c cs))]
    exact ih (fun d hd => hw d (List.mem_cons_of_mem c hd))

lemma rstripWS_ws (x w : Str) (hw : ∀ c ∈ w, isSpaceB c = true) :
    rstripWS (x ++ w) = rstripWS x := by
  unfold rstripWS
  rw [List.reverse_append, List.dropWhile_append_of_pos
    (fun a ha => hw a (List.mem_reverse.mp ha))]

lemma trimWS_ws_right (x w : Str) (hw : ∀ c ∈ w, isSpaceB c = true) :
    trimWS (x ++ w) = trimWS x := by
  unfold trimWS
  rw [rstripWS_ws x w hw]

lemma trimWS_ws_left (w x : Str) (hw : ∀ c ∈ w, isSpaceB c = true) :
    trimWS (w ++ x) = trimWS x := by
  unfold trimWS rstripWS
  rw [List.reverse_append, List.dropWhile_append]
  split
  case isTrue h =>
    rw [dropWhile_eq_nil_of_all (fun c hc => hw c (List.mem_reverse.mp hc))]
    have hx : x.reverse.dropWhile isSpaceB = [] := by
      cases hxx : x.reverse.dropWhile isSpaceB with
      | nil => rfl
      | cons a l => rw [hxx] at h; simp [List.isEmpty] at h
    rw [hx]
  case isFalse h =>
    rw [List.reverse_append, List.reverse_reverse,
      List.dropWhile_append_of_pos (fun a ha => hw a ha)]

lemma isSpaceB_asciiUpper (c : Char) : isSpaceB (asciiUpper c) = isSpaceB c := by
  unfold asciiUpper
  split <;> rfl

lemma dropWhile_map_upper (l : Str) :
    (l.map asciiUpper).dropWhile isSpaceB = (l.dropWhile isSpaceB).map asciiUpper := by
  have h : (isSpaceB ∘ asciiUpper) = isSpaceB := funext isSpaceB_asciiUpper
  rw [List.dropWhile_map, h]

lemma trimWS_map_upper (l : Str) :
    trimWS (l.map asciiUpper) = (trimWS l).map asciiUpper := by
  unfold trimWS rstripWS
  rw [← List.map_reverse, dropWhile_map_upper, ← List.map_reverse, dropWhile_map_upper]

lemma inScopeStr_case_inv (s t : Str) (h : s.map asciiUpper = t.map asciiUpper) :
    inScopeStr t = inScopeStr s := by
  unfold inScopeStr listUpper
  have hh : (trimWS t).map asciiUpper = (trimWS s).map asciiUpper := by
    rw [← trimWS_map_upper, ← trimWS_map_upper, h]
  rw [hh]

/-- C1: a record is in the exported (filtered) set iff it occurs in the
input, its category matches, and its `School UDISE` value is absent or
blank after trimming; every other record is excluded. -/
theorem C1_missing_filter (rs : List Record) (r : Record) :
    r ∈ filteredSet rs ↔
      r ∈ rs ∧ inScope r = true ∧
        (r.schoolUDISE = none ∨ trimWS (r.schoolUDISE.getD []) = []) := by
  unfold filteredSet
  rw [List.mem_filter, List.mem_filter, missingMask_iff, and_assoc]

/-- C2: the category filter is a total boolean decision, invariant under
adding leading and trailing whitespace and under changing letter case, and
a value is in scope iff its trimmed upper-cased form equals the sentinel. -/
theorem C2_category_filter (r : Record) (s t w1 w2 : Str)
    (hw1 : ∀ c ∈ w1, isSpaceB c = true) (hw2 : ∀ c ∈ w2, isSpaceB c = true)
    (hcase : s.map asciiUpper = t.map asciiUpper) :
    (inScope r = true ∨ inScope r = false) ∧
    ¬(inScope r = true ∧ inScope r = false) ∧
    inScopeStr (w1 ++ s ++ w2) = inScopeStr s ∧
    inScopeStr t = inScopeStr s ∧
    (inScopeStr s = true ↔ listUpper (trimWS s) = adoloscentLit) := by
  refine ⟨?_, ?_, ?_, inScopeStr_case_inv s t hcase, ?_⟩
  · cases h : inScope r
    · exact Or.inr rfl
    · exact Or.inl rfl
  · rintro ⟨h1, h2⟩
    rw [h1] at h2
    cases h2
  · unfold inScopeStr
    rw [trimWS_ws_right (w1 ++ s) w2 hw2, trimWS_ws_left w1 s hw1]
  · unfold inScopeStr
    exact beq_iff_eq

def cw2 : Record :=
  ⟨some "  adoLoscent ".data, none, some "A".data, none, none, none, none, none⟩

theorem C2_category_filter_witness :
    inScopeStr ((" ".data ++ "adoloscent".data) ++ "  ".data) = inScopeStr "adoloscent".data ∧
    inScopeStr "AdOlOsCeNt".data = inScopeStr "adoloscent".data ∧
    (inScopeStr "adoloscent".data = true ↔
      listUpper (trimWS "adoloscent".data) = adoloscentLit) :=
  let h := C2_category_filter cw2 "adoloscent".data "AdOlOsCeNt".data " ".data "  ".data
    (by decide) (by decide) (by decide)
  ⟨h.2.2.1, h.2.2.2.1, h.2.2.2.2⟩

/-! Severity classification. -/

lemma beq_missing_label (b : Bool) :
    ((if b then ("Missing" : String) else "Available") == "Missing") = b := by
  cases b <;> decide

lemma beq_dob_label (b : Bool) :
    ((if b then ("Flag – DOB is 1 Jan" : String) else "") == "Flag – DOB is 1 Jan") = b := by
  cases b <;> decide

lemma beq_phone_label (b : Bool) :
    ((if b then ("Missing/Invalid" : String) else "Valid") == "Missing/Invalid") = b := by
  cases b <;> decide

lemma bne_caste_label (b : Bool) :
    ((if b then ("Caste not known/disclosed" : String) else "") != "") = b := by
  cases b <;> decide

lemma issueCols_length (r : Record) :
    (issueCols r).length = activeCount (flagsOf r) := by
  unfold issueCols
  rw [show (udiseLabel r == "Missing") = udiseFlagB r from beq_missing_label _,
    show (csnLabel r == "Missing") = csnFlagB r from beq_missing_label _,
    show (dobLabel r == "Flag – DOB is 1 Jan") = dobFlagB r from beq_dob_label _,
    show (phoneLabel r == "Missing/Invalid") = phoneFlagB r from beq_phone_label _,
    show (casteCheckLabel r != "") = casteFlagB r from bne_caste_label _,
    show (pcLabel r == "Missing") = pcFlagB r from beq_missing_label _]
  unfold activeCount flagsOf
  cases udiseFlagB r <;> cases csnFlagB r <;> cases dobFlagB r <;>
    cases phoneFlagB r <;> cases casteFlagB r <;> cases pcFlagB r <;> rfl

lemma rowFill_eq_tierSpec (r : Record) :
    rowFill r = tierSpec (activeCount (flagsOf r)) := by
  unfold rowFill tierSpec
  rw [issueCols_length]

/-- C3: the fill of a data row is a function of the number of active flags
alone, with the fixed tier map 0 to none, 1–2 to yellow, more than 2 to
red; two records with the same count always get the same fill. -/
theorem C3_severity_by_count (r r' : Record)
    (h : activeCount (flagsOf r) = activeCount (flagsOf r')) :
    rowFill r = tierSpec (activeCount (flagsOf r)) ∧
    rowFill r = rowFill r' ∧
    tierSpec 0 = none ∧
    (∀ n, 1 ≤ n → n ≤ 2 → tierSpec n = some Fill.yellow) ∧
    (∀ n, 2 < n → tierSpec n = some Fill.red) := by
  refine ⟨rowFill_eq_tierSpec r, ?_, rfl, ?_, ?_⟩
  · rw [rowFill_eq_tierSpec, rowFill_eq_tierSpec, h]
  · intro n h1 h2
    unfold tierSpec
    rw [if_neg (by omega), if_neg (by omega)]
  · intro n h3
    unfold tierSpec
    rw [if_neg (by omega), if_pos h3]

def cw3a : Record :=
  ⟨some "ADOLOSCENT".data, some "".data, some "A".data, some "S".data,
    some "15-01-1990".data, some "9876543210".data, some "Hindu".data, some "Yes".data⟩

def cw3b : Record :=
  ⟨some "ADOLOSCENT".data, some "12345".data, some "A".data, some "S".data,
    some "15-01-1990".data, some "123".data, some "Hindu".data, some "Yes".data⟩

theorem C3_severity_by_count_witness :
    activeCount (flagsOf cw3a) = 1 ∧ activeCount (flagsOf cw3b) = 1 ∧
    flagsOf cw3a ≠ flagsOf cw3b ∧ rowFill cw3a = rowFill cw3b :=
  ⟨by decide, by decide, by decide,
    (C3_severity_by_count cw3a cw3b (by decide)).2.1⟩

/-! Phone rule. -/

lemma phoneDigits_all_digits (o : Option Str) :
    ∀ d ∈ phoneDigits o, isDigitB d = true :=
  fun _ hd => (List.mem_filter.mp hd).2

lemma phoneFlagV_iff (o : Option Str) :
    phoneFlagV o = true ↔
      (phoneDigits o = [] ∨
        ¬((phoneDigits o).length = 10 ∧
          ∃ c rest, phoneDigits o = c :: rest ∧ isSixToNine c = true)) := by
  unfold phoneFlagV
  cases hd : phoneDigits o with
  | nil => simp
  | cons c rest =>
    have hall : rest.all isDigitB = true := by
      rw [List.all_eq_true]
      intro x hx
      exact phoneDigits_all_digits o x (by rw [hd]; exact List.mem_cons_of_mem c hx)
    simp only [matchMobile]
    constructor
    · intro h
      right
      rintro ⟨hlen, c', rest', heq, hc'⟩
      injection heq with h1 h2
      subst h1
      subst h2
      have h9 : (rest.length == 9) = true := by
        simp only [List.length_cons] at hlen
        simp only [beq_iff_eq]
        omega
      rw [hc', h9, hall] at h
      simp at h
    · intro hOr
      rcases hOr with h | h
      · exact absurd h (List.cons_ne_nil c rest)
      · simp only [Bool.or_eq_true]
        right
        simp only [Bool.not_eq_true']
        cases hs : isSixToNine c with
        | false => rfl
        | true =>
          cases hl : rest.length == 9 with
          | false => simp
          | true =>
            exfalso
            apply h
            have h9 : rest.length = 9 := by simpa using hl
            exact ⟨by simp [h9], c, rest, rfl, hs⟩

/-- C6: the phone rule strips non-digit characters and labels the record
Missing-slash-Invalid iff the digit string is empty or is not exactly ten
digits starting with 6, 7, 8 or 9, Valid otherwise; the three scenario
inputs behave as the spec says. -/
theorem C6_phone_rule (o : Option Str) :
    (phoneLabelV o = "Missing/Invalid" ↔
      (phoneDigits o = [] ∨
        ¬((phoneDigits o).length = 10 ∧
          ∃ c rest, phoneDigits o = c :: rest ∧ isSixToNine c = true))) ∧
    (phoneLabelV o = "Valid" ↔
      ¬(phoneDigits o = [] ∨
        ¬((phoneDigits o).length = 10 ∧
          ∃ c rest, phoneDigits o = c :: rest ∧ isSixToNine c = true))) ∧
    phoneLabelV (some "+91 98765-43210".data) = "Missing/Invalid" ∧
    phoneLabelV (some "9876543210".data) = "Valid" ∧
    phoneLabelV (some "5876543210".data) = "Missing/Invalid" := by
  refine ⟨?_, ?_, by decide, by decide, by decide⟩
  · rw [← phoneFlagV_iff]
    unfold phoneLabelV
    cases h : phoneFlagV o <;> simp [h]
  · rw [← phoneFlagV_iff]
    unfold phoneLabelV
    cases h : phoneFlagV o <;> simp [h]

/-! Filename sanitization. -/

lemma mem_collapseWS {c : Char} :
    ∀ {l : Str}, c ∈ collapseWS l → c = '_' ∨ (c ∈ l ∧ isSpaceB c = false) := by
  intro l
  induction l using collapseWS.induct with
  | case1 =>
    intro h
    rw [collapseWS] at h
    cases h
  | case2 c' cs hsp ih =>
    intro h
    rw [collapseWS, if_pos hsp] at h
    rcases List.mem_cons.mp h with h1 | h2
    · exact Or.inl h1
    · rcases ih h2 with h3 | ⟨h4, h5⟩
      · exact Or.inl h3
      · exact Or.inr ⟨List.mem_cons_of_mem c' (List.dropWhile_subset isSpaceB h4), h5⟩
  | case3 c' cs hsp ih =>
    intro h
    rw [collapseWS, if_neg hsp] at h
    rcases List.mem_cons.mp h with h1 | h2
    · subst h1
      exact Or.inr ⟨List.mem_cons_self c cs, by simpa using hsp⟩
    · rcases ih h2 with h3 | ⟨h4, h5⟩
      · exact Or.inl h3
      · exact Or.inr ⟨List.mem_cons_of_mem c' h4, h5⟩

lemma mem_subNonWord {c : Char} {l : Str} (h : c ∈ subNonWord l) :
    c = '_' ∨ isWordCharB c = true ∨ c = '-' ∨ isSpaceB c = true := by
  unfold subNonWord at h
  rcases List.mem_map.mp h with ⟨b, _, hb⟩
  by_cases hcond : (isWordCharB b || b = '-' || isSpaceB b) = true
  · rw [if_pos (by simpa using hcond)] at hb
    subst hb
    simp only [Bool.or_eq_true, decide_eq_true_eq] at hcond
    rcases hcond with (h1 | h2) | h3
    · exact Or.inr (Or.inl h1)
    · exact Or.inr (Or.inr (Or.inl h2))
    · exact Or.inr (Or.inr (Or.inr h3))
  · rw [if_neg (by simpa using hcond)] at hb
    exact Or.inl hb.symm

lemma char_eq_of_toNat {c d : Char} (h : c.toNat = d.toNat) : c = d :=
  Char.eq_of_val_eq (UInt32.ext (by simpa using h))

lemma isWordCharB_allowed {c : Char} (h : isWordCharB c = true) :
    (c.isAlphanum || c = '_' || c = '-' || c = ' ') = true := by
  unfold isWordCharB isDigitB at h
  simp only [Bool.or_eq_true, Bool.and_eq_true, decide_eq_true_eq] at h
  simp only [Bool.or_eq_true, decide_eq_true_eq]
  have hup : (65 ≤ c.toNat ∧ c.toNat ≤ 90) → c.isUpper = true := by
    intro hr
    unfold Char.isUpper
    simp only [Bool.and_eq_true, ge_iff_le, UInt32.le_def, BitVec.le_def, decide_eq_true_eq]
    exact ⟨hr.1, hr.2⟩
  have hlo : (97 ≤ c.toNat ∧ c.toNat ≤ 122) → c.isLower = true := by
    intro hr
    unfold Char.isLower
    simp only [Bool.and_eq_true, ge_iff_le, UInt32.le_def, BitVec.le_def, decide_eq_true_eq]
    exact ⟨hr.1, hr.2⟩
  have hdg : (48 ≤ c.toNat ∧ c.toNat ≤ 57) → c.isDigit = true := by
    intro hr
    unfold Char.isDigit
    simp only [Bool.and_eq_true, ge_iff_le, UInt32.le_def, BitVec.le_def, decide_eq_true_eq]
    exact ⟨hr.1, hr.2⟩
  rcases h with ((h1 | h2) | h3) | h4
  · refine Or.inl (Or.inl (Or.inl ?_))
    unfold Char.isAlphanum Char.isAlpha
    simp only [Bool.or_eq_true]
    exact Or.inl (Or.inl (hup h1))
  · refine Or.inl (Or.inl (Or.inl ?_))
    unfold Char.isAlphanum Char.isAlpha
    simp only [Bool.or_eq_true]
    exact Or.inl (Or.inr (hlo h2))
  · refine Or.inl (Or.inl (Or.inl ?_))
    unfold Char.isAlphanum Char.isAlpha
    simp only [Bool.or_eq_true]
    exact Or.inr (hdg h3)
  · exact Or.inl (Or.inl (Or.inr (char_eq_of_toNat h4)))

lemma placeholder_chars :
    ∀ c ∈ placeholderName, (c.isAlphanum || c = '_' || c = '-' || c = ' ') = true := by
  decide

lemma safeFilename_chars {c : Char} {s : Str} (h : c ∈ safeFilename s) :
    (c.isAlphanum || c = '_' || c = '-' || c = ' ') = true := by
  unfold safeFilename at h
  have h' := List.mem_of_mem_take h
  split at h'
  case isTrue =>
    exact placeholder_chars c h'
  case isFalse =>
    rcases mem_collapseWS h' with h1 | ⟨h2, h3⟩
    · subst h1
      decide
    · rcases mem_subNonWord h2 with h4 | h5 | h6 | h7
      · subst h4
        decide
      · exact isWordCharB_allowed h5
      · subst h6
        decide
      · rw [h7] at h3
        cases h3

/-- C8: the sanitized filename never exceeds 150 characters, every one of
its characters is alphanumeric, an underscore, a dash or a space, and the
result is never empty. -/
theorem C8_safe_filename (s : Str) :
    (safeFilename s).length ≤ 150 ∧
    (∀ c ∈ safeFilename s, (c.isAlphanum || c = '_' || c = '-' || c = ' ') = true) ∧
    safeFilename s ≠ [] := by
  refine ⟨?_, fun c hc => safeFilename_chars hc, ?_⟩
  · unfold safeFilename
    exact List.length_take_le 150 _
  · unfold safeFilename
    split
    case isTrue => decide
    case isFalse h =>
      intro hcon
      rcases List.take_eq_nil_iff.mp hcon with h1 | h2
      · exact absurd h1 (by decide)
      · exact h h2

/-! Group summary: order lemmas for keys. -/

lemma lexLt_irrefl (a : Str) : lexLt a a = false := by
  induction a with
  | nil => rfl
  | cons c cs ih => simp [lexLt, ih]

lemma lexLt_trans : ∀ {a b c : Str},
    lexLt a b = true → lexLt b c = true → lexLt a c = true := by
  intro a
  induction a with
  | nil =>
    intro b c h1 h2
    cases b with
    | nil => cases h1
    | cons y ys =>
      cases c with
      | nil => cases h2
      | cons z zs => rfl
  | cons x xs ih =>
    intro b c h1 h2
    cases b with
    | nil => cases h1
    | cons y ys =>
      cases c with
      | nil => cases h2
      | cons z zs =>
        simp only [lexLt, Bool.or_eq_true, Bool.and_eq_true, decide_eq_true_eq] at h1 h2 ⊢
        rcases h1 with h1 | ⟨h1e, h1r⟩
        · rcases h2 with h2 | ⟨h2e, h2r⟩
          · exact Or.inl (by omega)
          · exact Or.inl (by omega)
        · rcases h2 with h2 | ⟨h2e, h2r⟩
          · exact Or.inl (by omega)
          · exact Or.inr ⟨by omega, ih h1r h2r⟩

lemma lexLt_eq_of_not : ∀ {a b : Str},
    lexLt a b = false → lexLt b a = false → a = b := by
  intro a
  induction a with
  | nil =>
    intro b h1 h2
    cases b with
    | nil => rfl
    | cons y ys => cases h1
  | cons x xs ih =>
    intro b h1 h2
    cases b with
    | nil => cases h2
    | cons y ys =>
      simp only [lexLt, Bool.or_eq_true, Bool.and_eq_true, decide_eq_true_eq,
        Bool.or_eq_false_iff, Bool.and_eq_false_iff] at h1 h2
      have hxy : x.toNat = y.toNat := by
        rcases h1 with ⟨h1a, _⟩
        rcases h2 with ⟨h2a, _⟩
        simp only [decide_eq_false_iff_not] at h1a h2a
        omega
      have hx : x = y := char_eq_of_toNat hxy
      subst hx
      rcases h1 with ⟨_, h1b⟩
      rcases h2 with ⟨_, h2b⟩
      rcases h1b with h1b | h1b
      · simp at h1b
      · rcases h2b with h2b | h2b
        · simp at h2b
        · rw [ih h1b h2b]

lemma keyLt_irrefl (a : Option Str) : keyLt a a = false := by
  cases a with
  | none => rfl
  | some s => simpa [keyLt] using lexLt_irrefl s

lemma keyLt_trans {a b c : Option Str}
    (h1 : keyLt a b = true) (h2 : keyLt b c = true) : keyLt a c = true := by
  cases a with
  | none => cases h1
  | some sa =>
    cases b with
    | none => cases h2
    | some sb =>
      cases c with
      | none => rfl
      | some sc => exact lexLt_trans h1 h2

lemma keyLt_eq_of_not {a b : Option Str}
    (h1 : keyLt a b = false) (h2 : keyLt b a = false) : a = b := by
  cases a with
  | none =>
    cases b with
    | none => rfl
    | some sb => cases h2
  | some sa =>
    cases b with
    | none => cases h1
    | some sb => rw [lexLt_eq_of_not h1 h2]

lemma keyLe_total (a b : Option Str) : keyLe a b = true ∨ keyLe b a = true := by
  unfold keyLe
  cases h1 : keyLt b a with
  | false => exact Or.inl rfl
  | true =>
    cases h2 : keyLt a b with
    | false => exact Or.inr rfl
    | true =>
      have := keyLt_trans h1 h2
      rw [keyLt_irrefl] at this
      cases this

lemma keyLe_trans {a b c : Option Str}
    (h1 : keyLe a b = true) (h2 : keyLe b c = true) : keyLe a c = true := by
  unfold keyLe at h1 h2 ⊢
  simp only [Bool.not_eq_true'] at h1 h2 ⊢
  cases hca : keyLt c a with
  | false => rfl
  | true =>
    cases hab : keyLt a b with
    | false =>
      have : a = b := keyLt_eq_of_not hab h1
      subst this
      rw [h2] at hca
      cases hca
    | true =>
      have := keyLt_trans hca hab
      rw [h2] at this
      cases this

lemma keyLt_of_keyLe_ne {a b : Option Str}
    (h1 : keyLe a b = true) (h2 : a ≠ b) : keyLt a b = true := by
  unfold keyLe at h1
  simp only [Bool.not_eq_true'] at h1
  cases hab : keyLt a b with
  | true => rfl
  | false => exact absurd (keyLt_eq_of_not hab h1) h2

/-! Sorting permutation and sortedness lemmas. -/

lemma insertAsc_perm (x : Option Str) (l : List (Option Str)) :
    List.Perm (insertAsc x l) (x :: l) := by
  induction l with
  | nil => exact List.Perm.refl _
  | cons y ys ih =>
    unfold insertAsc
    split
    · exact List.Perm.refl _
    · exact (List.Perm.cons y ih).trans (List.Perm.swap x y ys)

lemma sortKeysAsc_perm (l : List (Option Str)) : List.Perm (sortKeysAsc l) l := by
  induction l with
  | nil => exact List.Perm.refl _
  | cons k ks ih => exact (insertAsc_perm k (sortKeysAsc ks)).trans (List.Perm.cons k ih)

lemma mem_insertAsc {x y : Option Str} {l : List (Option Str)}
    (h : y ∈ insertAsc x l) : y = x ∨ y ∈ l := by
  rcases List.mem_cons.mp ((insertAsc_perm x l).mem_iff.mp h) with h1 | h2
  · exact Or.inl h1
  · exact Or.inr h2

lemma insertAsc_sorted (x : Option Str) (l : List (Option Str))
    (hl : l.Pairwise (fun a b => keyLe a b = true)) :
    (insertAsc x l).Pairwise (fun a b => keyLe a b = true) := by
  induction l with
  | nil => simp [insertAsc]
  | cons y ys ih =>
    rcases List.pairwise_cons.mp hl with ⟨hy, hys⟩
    unfold insertAsc
    split
    case isTrue h =>
      refine List.pairwise_cons.mpr ⟨?_, hl⟩
      intro z hz
      rcases List.mem_cons.mp hz with h1 | h2
      · rw [h1]; exact h
      · exact keyLe_trans h (hy z h2)
    case isFalse h =>
      have hyx : keyLe y x = true := by
        rcases keyLe_total x y with h1 | h2
        · exact absurd h1 h
        · exact h2
      refine List.pairwise_cons.mpr ⟨?_, ih hys⟩
      intro z hz
      rcases mem_insertAsc hz with h1 | h2
      · rw [h1]; exact hyx
      · exact hy z h2

lemma sortKeysAsc_sorted (l : List (Option Str)) :
    (sortKeysAsc l).Pairwise (fun a b => keyLe a b = true) := by
  induction l with
  | nil => exact List.Pairwise.nil
  | cons k ks ih => exact insertAsc_sorted k (sortKeysAsc ks) ih

lemma sortKeysAsc_pairwise_lt (l : List (Option Str)) (hnd : l.Nodup) :
    (sortKeysAsc l).Pairwise (fun a b => keyLt a b = true) := by
  have hnd' : (sortKeysAsc l).Nodup := (sortKeysAsc_perm l).nodup_iff.mpr hnd
  have hs := sortKeysAsc_sorted l
  exact (hs.and hnd').imp (fun hab => keyLt_of_keyLe_ne hab.1 hab.2)

lemma insertDesc_perm (x : SRow) (l : List SRow) : List.Perm (insertDesc x l) (x :: l) := by
  induction l with
  | nil => exact List.Perm.refl _
  | cons y ys ih =>
    unfold insertDesc
    split
    · exact List.Perm.refl _
    · exact (List.Perm.cons y ih).trans (List.Perm.swap x y ys)

lemma sortCountDesc_perm (l : List SRow) : List.Perm (sortCountDesc l) l := by
  induction l with
  | nil => exact List.Perm.refl _
  | cons x xs ih => exact (insertDesc_perm x (sortCountDesc xs)).trans (List.Perm.cons x ih)

lemma mem_insertDesc {x y : SRow} {l : List SRow}
    (h : y ∈ insertDesc x l) : y = x ∨ y ∈ l := by
  rcases List.mem_cons.mp ((insertDesc_perm x l).mem_iff.mp h) with h1 | h2
  · exact Or.inl h1
  · exact Or.inr h2

lemma insertDesc_pairwise (x : SRow) (l : List SRow)
    (hl : l.Pairwise (fun a b => b.2 < a.2 ∨ (a.2 = b.2 ∧ keyLt a.1 b.1 = true)))
    (hx : ∀ y ∈ l, keyLt x.1 y.1 = true) :
    (insertDesc x l).Pairwise
      (fun a b => b.2 < a.2 ∨ (a.2 = b.2 ∧ keyLt a.1 b.1 = true)) := by
  induction l with
  | nil => simp [insertDesc]
  | cons y ys ih =>
    rcases List.pairwise_cons.mp hl with ⟨hy, hys⟩
    unfold insertDesc
    split
    case isTrue h =>
      refine List.pairwise_cons.mpr ⟨?_, hl⟩
      intro z hz
      have hz2 : z.2 ≤ x.2 := by
        rcases List.mem_cons.mp hz with h1 | h2
        · rw [h1]; exact h
        · rcases hy z h2 with h3 | ⟨h3, _⟩ <;> omega
      rcases Nat.lt_or_ge z.2 x.2 with h4 | h4
      · exact Or.inl h4
      · exact Or.inr ⟨by omega, hx z hz⟩
    case isFalse h =>
      refine List.pairwise_cons.mpr
        ⟨?_, ih hys (fun z hz => hx z (List.mem_cons_of_mem y hz))⟩
      intro z hz
      rcases mem_insertDesc hz with h1 | h2
      · rw [h1]; exact Or.inl (by omega)
      · exact hy z h2

lemma sortCountDesc_pairwise (l : List SRow)
    (hl : l.Pairwise (fun a b => keyLt a.1 b.1 = true)) :
    (sortCountDesc l).Pairwise
      (fun a b => b.2 < a.2 ∨ (a.2 = b.2 ∧ keyLt a.1 b.1 = true)) := by
  induction l with
  | nil => exact List.Pairwise.nil
  | cons x xs ih =>
    rcases List.pairwise_cons.mp hl with ⟨hx, hxs⟩
    unfold sortCountDesc
    refine insertDesc_pairwise x (sortCountDesc xs) (ih hxs) ?_
    intro y hy
    exact hx y ((sortCountDesc_perm xs).mem_iff.mp hy)

/-! Aggregation: counts and totals. -/

lemma sum_map_add_distrib (keys : List (Option Str)) (f g : Option Str → Nat) :
    (keys.map (fun k => f k + g k)).sum = (keys.map f).sum + (keys.map g).sum := by
  induction keys with
  | nil => rfl
  | cons k ks ih =>
    simp only [List.map_cons, List.sum_cons, ih]
    omega

lemma sum_indicator (keys : List (Option Str)) (k0 : Option Str)
    (hnd : keys.Nodup) (hmem : k0 ∈ keys) :
    (keys.map (fun k => if k0 == k then (1 : Nat) else 0)).sum = 1 := by
  induction keys with
  | nil => cases hmem
  | cons k ks ih =>
    rcases List.pairwise_cons.mp hnd with ⟨hk, hks⟩
    rcases List.mem_cons.mp hmem with h1 | h2
    · subst h1
      simp only [List.map_cons, List.sum_cons, beq_self_eq_true, if_true]
      have hz : (ks.map (fun k => if k0 == k then (1 : Nat) else 0)).sum = 0 := by
        apply List.sum_eq_zero
        intro x hx
        rcases List.mem_map.mp hx with ⟨k', hk', hx'⟩
        rw [beq_eq_false_iff_ne.mpr (hk k' hk')] at hx'
        simpa using hx'.symm
      omega
    · have hne : (k0 == k) = false := beq_eq_false_iff_ne.mpr (Ne.symm (hk k0 h2))
      simp only [List.map_cons, List.sum_cons, hne]
      rw [if_neg (by simp), ih hks h2]

lemma countFor_cons (r : Record) (rs : List Record) (k : Option Str) :
    countFor (r :: rs) k = countFor rs k + (if groupKey r == k then 1 else 0) := by
  unfold countFor
  rw [List.countP_cons]

lemma sum_counts_eq_length (keys : List (Option Str)) (rs : List Record)
    (hnd : keys.Nodup) (hcov : ∀ r ∈ rs, groupKey r ∈ keys) :
    (keys.map (countFor rs)).sum = rs.length := by
  induction rs with
  | nil =>
    apply List.sum_eq_zero
    intro x hx
    rcases List.mem_map.mp hx with ⟨k, _, hx'⟩
    rw [← hx']
    rfl
  | cons r rs ih =>
    have hcov' : ∀ x ∈ rs, groupKey x ∈ keys :=
      fun x hx => hcov x (List.mem_cons_of_mem r hx)
    have h1 : keys.map (countFor (r :: rs)) =
        keys.map (fun k => countFor rs k + (if groupKey r == k then 1 else 0)) :=
      List.map_congr_left (fun k _ => countFor_cons r rs k)
    rw [h1, sum_map_add_distrib, ih hcov',
      sum_indicator keys (groupKey r) hnd (hcov r (List.mem_cons_self r rs))]
    simp

/-- C4: the summary counts total exactly the number of filtered records,
the group keys of the summary are pairwise distinct (the missing key forms
one group of its own), and every record's key appears in the summary. -/
theorem C4_summary_total (rs : List Record) :
    sumCounts (summaryOf rs) = rs.length ∧
    ((summaryOf rs).map Prod.fst).Nodup ∧
    ∀ r ∈ rs, groupKey r ∈ (summaryOf rs).map Prod.fst := by
  have hkperm : List.Perm (sortKeysAsc (rs.map groupKey).dedup) (rs.map groupKey).dedup :=
    sortKeysAsc_perm _
  have hknd : (sortKeysAsc (rs.map groupKey).dedup).Nodup :=
    hkperm.nodup_iff.mpr ((rs.map groupKey).nodup_dedup)
  have hkmem : ∀ r ∈ rs, groupKey r ∈ sortKeysAsc (rs.map groupKey).dedup :=
    fun r hr => hkperm.mem_iff.mpr (List.mem_dedup.mpr (List.mem_map_of_mem groupKey hr))
  have hperm : List.Perm (summaryOf rs)
      ((sortKeysAsc (rs.map groupKey).dedup).map (fun k => (k, countFor rs k))) :=
    sortCountDesc_perm _
  have hfst : ((sortKeysAsc (rs.map groupKey).dedup).map
      (fun k => (k, countFor rs k))).map Prod.fst = sortKeysAsc (rs.map groupKey).dedup := by
    rw [List.map_map]
    exact List.map_id _
  refine ⟨?_, ?_, ?_⟩
  · unfold sumCounts
    rw [(hperm.map Prod.snd).sum_eq, List.map_map]
    exact sum_counts_eq_length _ rs hknd hkmem
  · rw [(hperm.map Prod.fst).nodup_iff]
    rw [hfst]
    exact hknd
  · intro r hr
    rw [(hperm.map Prod.fst).mem_iff, hfst]
    exact hkmem r hr

def cw4 : Record :=
  ⟨some "ADOLOSCENT".data, none, some "A".data, none, none, none, none, none⟩

theorem C4_summary_total_witness :
    groupKey cw4 ∈ (summaryOf [cw4]).map Prod.fst :=
  (C4_summary_total [cw4]).2.2 cw4 (List.mem_cons_self cw4 [])

def cex5B : Record :=
  ⟨some "ADOLOSCENT".data, none, some "B".data, none, none, none, none, none⟩

def cex5A : Record :=
  ⟨some "ADOLOSCENT".data, none, some "A".data, none, none, none, none, none⟩

/-- C5 counterexample: in a filtered collection whose keys are first
encountered in the order B then A, both groups count 1, yet the summary
lists A before B: ties are not broken by first-seen encounter order. -/
theorem C5_counterexample :
    filteredSet [cex5B, cex5A] = [cex5B, cex5A] ∧
    [cex5B, cex5A].map groupKey = [some "B".data, some "A".data] ∧
    countFor [cex5B, cex5A] (some "B".data) =
      countFor [cex5B, cex5A] (some "A".data) ∧
    summaryOf [cex5B, cex5A] = [(some "A".data, 1), (some "B".data, 1)] := by
  refine ⟨by decide, by decide, by decide, by decide⟩

/-- C5 (amended): the summary is sorted by count descending, and two groups
of equal count appear in ascending group-key order (the missing-key group
last), the order `groupby` emits the groups in, not first-seen order. -/
theorem C5_sorted_desc (rs : List Record) :
    (summaryOf rs).Pairwise
      (fun a b => b.2 < a.2 ∨ (a.2 = b.2 ∧ keyLt a.1 b.1 = true)) := by
  unfold summaryOf
  apply sortCountDesc_pairwise
  rw [List.pairwise_map]
  exact sortKeysAsc_pairwise_lt _ ((rs.map groupKey).nodup_dedup)

theorem C5_sorted_desc_witness :
    (summaryOf [cex5B, cex5A]).Pairwise
      (fun a b => b.2 < a.2 ∨ (a.2 = b.2 ∧ keyLt a.1 b.1 = true)) :=
  C5_sorted_desc [cex5B, cex5A]

/-! Birth-date rule: characterization of the pattern scan. -/

lemma matchLeadOne_iff (l t : Str) :
    matchLeadOne l = some t ↔ (l = '1' :: t ∨ l = '0' :: '1' :: t) := by
  cases l with
  | nil =>
    constructor
    · intro h; cases h
    · intro h; rcases h with h | h <;> cases h
  | cons c cs =>
    simp only [matchLeadOne]
    by_cases h1 : c = '1'
    · subst h1
      rw [if_pos rfl]
      constructor
      · intro h
        injection h with h'
        subst h'
        exact Or.inl rfl
      · intro h
        rcases h with h | h
        · injection h with _ h2
          rw [h2]
        · injection h with hbad _
          exact absurd hbad (by decide)
    · rw [if_neg h1]
      by_cases h0 : c = '0'
      · subst h0
        rw [if_pos rfl]
        cases cs with
        | nil =>
          constructor
          · intro h; cases h
          · intro h
            rcases h with h | h
            · injection h with hbad _
              exact absurd hbad (by decide)
            · injection h with _ h2
              cases h2
        | cons d ds =>
          by_cases hd : d = '1'
          · subst hd
            show (if ('1' : Char) = '1' then some ds else none) = some t ↔ _
            rw [if_pos rfl]
            constructor
            · intro h
              injection h with h'
              subst h'
              exact Or.inr rfl
            · intro h
              rcases h with h | h
              · injection h with hbad _
                exact absurd hbad (by decide)
              · injection h with _ h2
                injection h2 with _ h3
                rw [h3]
          · show (if d = '1' then some ds else none) = some t ↔ _
            rw [if_neg hd]
            constructor
            · intro h; cases h
            · intro h
              rcases h with h | h
              · injection h with hbad _
                exact absurd hbad (by decide)
              · injection h with _ h2
                injection h2 with hbad _
                exact absurd hbad hd
      · rw [if_neg h0]
        constructor
        · intro h; cases h
        · intro h
          rcases h with h | h
          · injection h with hbad _
            exact absurd hbad h1
          · injection h with hbad _
            exact absurd hbad h0

lemma dobMatchAt_iff (l : Str) :
    dobMatchAt l = true ↔
      ∃ d1 s1 d2 s2 rest,
        l = d1 ++ (s1 :: (d2 ++ (s2 :: rest))) ∧
        (d1 = ['1'] ∨ d1 = ['0', '1']) ∧ isSep1 s1 = true ∧
        (d2 = ['1'] ∨ d2 = ['0', '1']) ∧ isSep2 s2 = true := by
  constructor
  · intro h
    unfold dobMatchAt at h
    cases hm : matchLeadOne l with
    | none => rw [hm] at h; exact Bool.noConfusion h
    | some t =>
      rw [hm] at h
      cases t with
      | nil => exact Bool.noConfusion h
      | cons s1 r1 =>
        have h' : (isSep1 s1 &&
            (match matchLeadOne r1 with
             | some (s2 :: _) => isSep2 s2
             | _ => false)) = true := h
        simp only [Bool.and_eq_true] at h'
        rcases h' with ⟨hs1, h2⟩
        cases hm2 : matchLeadOne r1 with
        | none => rw [hm2] at h2; exact Bool.noConfusion h2
        | some t2 =>
          rw [hm2] at h2
          cases t2 with
          | nil => exact Bool.noConfusion h2
          | cons s2 rest =>
            have h2' : isSep2 s2 = true := h2
            rcases (matchLeadOne_iff l (s1 :: r1)).mp hm with hd1 | hd1 <;>
              rcases (matchLeadOne_iff r1 (s2 :: rest)).mp hm2 with hd2 | hd2
            · exact ⟨['1'], s1, ['1'], s2, rest, by rw [hd1, hd2]; rfl,
                Or.inl rfl, hs1, Or.inl rfl, h2'⟩
            · exact ⟨['1'], s1, ['0', '1'], s2, rest, by rw [hd1, hd2]; rfl,
                Or.inl rfl, hs1, Or.inr rfl, h2'⟩
            · exact ⟨['0', '1'], s1, ['1'], s2, rest, by rw [hd1, hd2]; rfl,
                Or.inr rfl, hs1, Or.inl rfl, h2'⟩
            · exact ⟨['0', '1'], s1, ['0', '1'], s2, rest, by rw [hd1, hd2]; rfl,
                Or.inr rfl, hs1, Or.inr rfl, h2'⟩
  · rintro ⟨d1, s1, d2, s2, rest, heq, hd1, hs1, hd2, hs2⟩
    subst heq
    rcases hd1 with rfl | rfl <;> rcases hd2 with rfl | rfl <;>
      simp [dobMatchAt, matchLeadOne, hs1, hs2]

lemma dobScan_iff : ∀ (l : Str) (prev : Option Char),
    dobScan prev l = true ↔
      ∃ pre post, l = pre ++ post ∧ dobMatchAt post = true ∧
        ((pre = [] ∧ boundaryB prev = true) ∨
          ∃ pr p, pre = pr ++ [p] ∧ isWordCharB p = false) := by
  intro l
  induction l with
  | nil =>
    intro prev
    constructor
    · intro h; exact Bool.noConfusion h
    · rintro ⟨pre, post, heq, hmatch, _⟩
      have hpost : post = [] := (List.append_eq_nil.mp heq.symm).2
      subst hpost
      exact Bool.noConfusion hmatch
  | cons c cs ih =>
    intro prev
    simp only [dobScan, Bool.or_eq_true, Bool.and_eq_true]
    constructor
    · rintro (⟨hb, hm⟩ | hrec)
      · exact ⟨[], c :: cs, rfl, hm, Or.inl ⟨rfl, hb⟩⟩
      · rcases (ih (some c)).mp hrec with ⟨pre, post, heq, hm, hside⟩
        refine ⟨c :: pre, post, by rw [heq]; rfl, hm, ?_⟩
        rcases hside with ⟨hpre, hb⟩ | ⟨pr, p, hpre, hp⟩
        · subst hpre
          refine Or.inr ⟨[], c, rfl, ?_⟩
          simpa [boundaryB] using hb
        · subst hpre
          exact Or.inr ⟨c :: pr, p, rfl, hp⟩
    · rintro ⟨pre, post, heq, hm, hside⟩
      cases pre with
      | nil =>
        rcases hside with ⟨_, hb⟩ | ⟨pr, p, hpre, _⟩
        · refine Or.inl ⟨hb, ?_⟩
          rw [List.nil_append] at heq
          rw [heq]
          exact hm
        · cases pr with
          | nil => cases hpre
          | cons q pr' => cases hpre
      | cons c' pre' =>
        right
        rw [List.cons_append] at heq
        injection heq with hc1 hc2
        subst hc1
        apply (ih (some c)).mpr
        refine ⟨pre', post, hc2, hm, ?_⟩
        rcases hside with ⟨hpre, _⟩ | ⟨pr, p, hpre, hp⟩
        · cases hpre
        · cases pr with
          | nil =>
            rw [List.nil_append] at hpre
            injection hpre with hp1 hp2
            subst hp1
            subst hp2
            exact Or.inl ⟨rfl, by simpa [boundaryB] using hp⟩
          | cons q pr' =>
            rw [List.cons_append] at hpre
            injection hpre with hq1 hq2
            exact Or.inr ⟨pr', p, hq2, hp⟩

/-- C7 (amended): the birth-date rule flags a value iff its trimmed text
contains, at the start or right after a non-word character, the pattern
day one then month one with optional leading zeros, where the separator
after the day is a dash, slash or space but the separator after the month
must be a dash or slash; the match is not anchored to the start of the
value. The two scenario inputs behave as the spec says. -/
theorem C7_dob_rule (o : Option Str) :
    (dobLabelV o = "Flag – DOB is 1 Jan" ↔
      ∃ pre d1 s1 d2 s2 post,
        cellTrim o = pre ++ (d1 ++ (s1 :: (d2 ++ (s2 :: post)))) ∧
        (d1 = ['1'] ∨ d1 = ['0', '1']) ∧ isSep1 s1 = true ∧
        (d2 = ['1'] ∨ d2 = ['0', '1']) ∧ isSep2 s2 = true ∧
        (pre = [] ∨ ∃ pr p, pre = pr ++ [p] ∧ isWordCharB p = false)) ∧
    dobLabelV (some "01-01-1990".data) = "Flag – DOB is 1 Jan" ∧
    dobLabelV (some "15-01-1990".data) = "" := by
  refine ⟨?_, by decide, by decide⟩
  have hlab : (dobLabelV o = "Flag – DOB is 1 Jan") ↔ dobFlagV o = true := by
    unfold dobLabelV
    cases h : dobFlagV o
    · constructor
      · intro hcon
        rw [if_neg (by simp)] at hcon
        exact absurd hcon (by decide)
      · intro hcon; cases hcon
    · constructor
      · intro _; rfl
      · intro _; rw [if_pos rfl]
  rw [hlab]
  unfold dobFlagV
  rw [dobScan_iff]
  constructor
  · rintro ⟨pre, post, heq, hm, hside⟩
    rcases (dobMatchAt_iff post).mp hm with ⟨d1, s1, d2, s2, rest, hpost, hd1, hs1, hd2, hs2⟩
    refine ⟨pre, d1, s1, d2, s2, rest, by rw [heq, hpost], hd1, hs1, hd2, hs2, ?_⟩
    rcases hside with ⟨hpre, _⟩ | h2
    · exact Or.inl hpre
    · exact Or.inr h2
  · rintro ⟨pre, d1, s1, d2, s2, post, heq, hd1, hs1, hd2, hs2, hside⟩
    refine ⟨pre, d1 ++ (s1 :: (d2 ++ (s2 :: post))), heq, ?_, ?_⟩
    · exact (dobMatchAt_iff _).mpr ⟨d1, s1, d2, s2, post, rfl, hd1, hs1, hd2, hs2⟩
    · rcases hside with h1 | h2
      · exact Or.inl ⟨h1, rfl⟩
      · exact Or.inr h2

/-- C7 counterexample: on the value born 1-1-1990 the code's rule flags
(the pattern occurs after a word boundary in the middle of the text) while
the claim's start-anchored pattern does not match, so the claimed iff
fails at this input. -/
theorem C7_counterexample :
    ¬(dobLabelV (some "born 1-1-1990".data) = "Flag – DOB is 1 Jan" ↔
      dobSpecStart "born 1-1-1990".data = true) := by
  decide

/-! Styling: where the fills land. -/

lemma mem_styledRows {k : Nat} {data : List Record} {i : Nat} {c : String} {f : Fill} :
    (i, c, f) ∈ styledRows k data →
      ∃ j, ∃ hj : j < data.length,
        i = 2 + (k + j) ∧ c ∈ issueCols (data.get ⟨j, hj⟩) ∧
        rowFill (data.get ⟨j, hj⟩) = some f := by
  induction data generalizing k with
  | nil =>
    intro h
    exact absurd h (List.not_mem_nil _)
  | cons r rest ih =>
    intro h
    rw [styledRows] at h
    rcases List.mem_append.mp h with h1 | h2
    · cases hf : rowFill r with
      | none =>
        rw [hf] at h1
        exact absurd h1 (List.not_mem_nil _)
      | some f' =>
        rw [hf] at h1
        rcases List.mem_map.mp h1 with ⟨c', hc', heq⟩
        injection heq with he1 he2
        injection he2 with he2 he3
        subst he1
        subst he2
        subst he3
        have h0 : 0 < (r :: rest).length := by
          simp only [List.length_cons]
          omega
        exact ⟨0, h0, by omega, hc', hf⟩
    · rcases ih h2 with ⟨j, hj, hi, hc, hfl⟩
      have hj1 : j + 1 < (r :: rest).length := by
        simp only [List.length_cons]
        omega
      exact ⟨j + 1, hj1, by omega, hc, hfl⟩

lemma styledRows_mem {k : Nat} {data : List Record} {j : Nat} (hj : j < data.length)
    {c : String} {f : Fill} (hf : rowFill (data.get ⟨j, hj⟩) = some f)
    (hc : c ∈ issueCols (data.get ⟨j, hj⟩)) :
    (2 + (k + j), c, f) ∈ styledRows k data := by
  induction data generalizing k j with
  | nil => cases hj
  | cons r rest ih =>
    rw [styledRows]
    apply List.mem_append.mpr
    cases j with
    | zero =>
      left
      rw [show ((r :: rest).get ⟨0, hj⟩) = r from rfl] at hf hc
      rw [hf]
      simp only [Nat.add_zero]
      exact List.mem_map.mpr ⟨c, hc, rfl⟩
    | succ j' =>
      right
      have hj' : j' < rest.length := Nat.lt_of_succ_lt_succ (by simpa using hj)
      have hget : (r :: rest).get ⟨j' + 1, hj⟩ = rest.get ⟨j', hj'⟩ := rfl
      rw [hget] at hf hc
      have := ih hj' hf hc (k := k + 1)
      have harith : 2 + (k + 1 + j') = 2 + (k + (j' + 1)) := by omega
      rw [harith] at this
      exact this

/-- C9: every styled cell of an artifact lies in a data row (Excel rows 2
through n plus 1, never the header row 1, never the blank row n plus 2 nor
the footer row n plus 3) and in a column implicated by a flag that is
active on that very row, with that row's fill. -/
theorem C9_styling_confined (data : List Record) (i : Nat) (c : String) (f : Fill)
    (h : (i, c, f) ∈ styledCellsOf data) :
    ∃ j, ∃ hj : j < data.length,
      i = 2 + j ∧ c ∈ issueCols (data.get ⟨j, hj⟩) ∧
      rowFill (data.get ⟨j, hj⟩) = some f ∧
      2 ≤ i ∧ i ≤ data.length + 1 ∧
      i ≠ 1 ∧ i ≠ data.length + 2 ∧ i ≠ data.length + 3 := by
  rcases mem_styledRows h with ⟨j, hj, hi, hc, hf⟩
  exact ⟨j, hj, by omega, hc, hf, by omega, by omega, by omega, by omega, by omega⟩

def cw9 : Record :=
  ⟨some "ADOLOSCENT".data, some "".data, some "A".data, some "S".data,
    some "15-01-1990".data, some "9876543210".data, some "Hindu".data, some "Yes".data⟩

theorem C9_styling_confined_witness :
    ((2 : Nat), "School UDISE", Fill.yellow) ∈ styledCellsOf [cw9] ∧
    (∃ j, ∃ hj : j < ([cw9] : List Record).length,
      2 = 2 + j ∧ "School UDISE" ∈ issueCols (([cw9] : List Record).get ⟨j, hj⟩) ∧
      rowFill (([cw9] : List Record).get ⟨j, hj⟩) = some Fill.yellow ∧
      2 ≤ 2 ∧ 2 ≤ ([cw9] : List Record).length + 1 ∧
      (2 : Nat) ≠ 1 ∧ (2 : Nat) ≠ ([cw9] : List Record).length + 2 ∧
      (2 : Nat) ≠ ([cw9] : List Record).length + 3) :=
  ⟨by decide, C9_styling_confined [cw9] 2 "School UDISE" Fill.yellow (by decide)⟩

lemma missingMask_udiseFlag {r : Record} (h : missingMask r = true) :
    udiseFlagB r = true := by
  unfold missingMask at h
  unfold udiseFlagB udiseFlagV cellTrim
  cases ho : r.schoolUDISE with
  | none => rfl
  | some s =>
    rw [ho] at h
    simpa using h

lemma udiseFlag_label {r : Record} (h : udiseFlagB r = true) :
    udiseLabel r = "Missing" := by
  unfold udiseLabel udiseLabelV
  rw [show udiseFlagV r.schoolUDISE = udiseFlagB r from rfl, h, if_pos rfl]

lemma udise_mem_issueCols {r : Record} (h : udiseFlagB r = true) :
    "School UDISE" ∈ issueCols r := by
  unfold issueCols
  apply List.mem_append.mpr
  left
  rw [show (udiseLabel r == "Missing") = udiseFlagB r from beq_missing_label _, h]
  exact List.mem_singleton.mpr rfl

lemma rowFill_some_of_mem {r : Record} {c : String} (h : c ∈ issueCols r) :
    ∃ f, rowFill r = some f := by
  unfold rowFill
  rw [if_neg]
  · exact ⟨_, rfl⟩
  · have := List.length_pos.mpr (List.ne_nil_of_mem h)
    omega

/-- C10: in every export artifact drawn from the filtered set, every data
row has its UDISE flag equal to Missing, hence at least one active issue,
a fill assigned to the row, and a styled School UDISE cell; the no-styling
tier is unreachable for exported rows. -/
theorem C10_exported_rows_udise (rs data : List Record)
    (hsub : ∀ r ∈ data, r ∈ filteredSet rs) (j : Nat) (hj : j < data.length) :
    udiseLabel (data.get ⟨j, hj⟩) = "Missing" ∧
    1 ≤ (issueCols (data.get ⟨j, hj⟩)).length ∧
    ∃ f, rowFill (data.get ⟨j, hj⟩) = some f ∧
      (2 + j, "School UDISE", f) ∈ styledCellsOf data := by
  have hmem : data.get ⟨j, hj⟩ ∈ data := List.get_mem data j hj
  have hmm : missingMask (data.get ⟨j, hj⟩) = true :=
    (List.mem_filter.mp (hsub _ hmem)).2
  have hfl : udiseFlagB (data.get ⟨j, hj⟩) = true := missingMask_udiseFlag hmm
  have hcol : "School UDISE" ∈ issueCols (data.get ⟨j, hj⟩) := udise_mem_issueCols hfl
  rcases rowFill_some_of_mem hcol with ⟨f, hf⟩
  refine ⟨udiseFlag_label hfl, List.length_pos.mpr (List.ne_nil_of_mem hcol), f, hf, ?_⟩
  have := styledRows_mem (k := 0) hj hf hcol
  simpa [styledCellsOf] using this

def cw10 : Record :=
  ⟨some "ADOLOSCENT".data, some " ".data, some "A".data, some "S".data,
    some "15-01-1990".data, some "9876543210".data, some "Hindu".data, some "Yes".data⟩

theorem C10_exported_rows_udise_witness :
    udiseLabel (([cw10] : List Record).get ⟨0, Nat.succ_pos 0⟩) = "Missing" ∧
    1 ≤ (issueCols (([cw10] : List Record).get ⟨0, Nat.succ_pos 0⟩)).length ∧
    ∃ f, rowFill (([cw10] : List Record).get ⟨0, Nat.succ_pos 0⟩) = some f ∧
      (2 + 0, "School UDISE", f) ∈ styledCellsOf [cw10] :=
  C10_exported_rows_udise [cw10] [cw10]
    (fun r hr => by rw [List.mem_singleton.mp hr]; decide) 0 (Nat.succ_pos 0)
